import Mathlib

/-!
Verification development for `convert_webarchives_windows_longpath.py`.

The Python source is shallowly embedded: strings are lists of characters,
bytes are lists of naturals below 256, the filesystem is an association
list from paths to contents, and each Python function of interest is
translated into an executable Lean definition carrying the line numbers
of the code it embeds.
-/

set_option maxRecDepth 100000

/-- Strings are modelled as lists of characters. -/
abbrev Str := List Char

/-- Byte strings are modelled as lists of naturals (each below 256). -/
abbrev Bytes := List Nat

/-- Characters matched by `INVALID_CHARS_RE = [<>:"/\\|?*\x00-\x1F]` (line 39). -/
def isInvalidChar (c : Char) : Bool :=
  c == '<' || c == '>' || c == ':' || c == '"' || c == '/' || c == '\\' ||
  c == '|' || c == '?' || c == '*' || decide (c.toNat < 32)

/-- Per-character upper-casing, modelling Python `str.upper()` (the inputs
compared against the reserved-name table are ASCII, where the two agree). -/
def upperStr (s : Str) : Str := s.map Char.toUpper

/-- The reserved Windows device names (`RESERVED_NAMES`, lines 40-44). -/
def reservedNames : List Str :=
  (["CON", "PRN", "AUX", "NUL",
    "COM1", "COM2", "COM3", "COM4", "COM5", "COM6", "COM7", "COM8", "COM9",
    "LPT1", "LPT2", "LPT3", "LPT4", "LPT5", "LPT6", "LPT7", "LPT8", "LPT9"]).map String.data

/-- Python `name.rstrip(" .")`: drop trailing spaces and dots. -/
def rstripSpaceDot (s : Str) : Str :=
  (s.reverse.dropWhile (fun c => c == ' ' || c == '.')).reverse

/-- Line 50 of `safe_component`: `INVALID_CHARS_RE.sub("_", name)`. -/
def scSubInvalid (name : Str) : Str :=
  name.map (fun c => if isInvalidChar c then '_' else c)

/-- Lines 51-53 of `safe_component`: `rstrip(" .")` followed by the
empty-name fallback `"_"`. -/
def scNonEmpty (name : Str) : Str :=
  if rstripSpaceDot (scSubInvalid name) = [] then ['_']
  else rstripSpaceDot (scSubInvalid name)

/-- Lines 50-55 of `safe_component`: everything before the final truncation,
ending with the reserved-device-name underscore prefix. -/
def scBeforeTruncate (name : Str) : Str :=
  if upperStr (scNonEmpty name) ∈ reservedNames then '_' :: scNonEmpty name
  else scNonEmpty name

/-- `safe_component(name, max_len)` (lines 49-58): replace invalid characters
by an underscore, strip trailing spaces/dots, substitute an underscore for the
empty result, prepend an underscore to reserved device names, truncate. -/
def safe_component (name : Str) (maxLen : Nat) : Str :=
  if (scBeforeTruncate name).length > maxLen then (scBeforeTruncate name).take maxLen
  else scBeforeTruncate name

/-- `MAX_COMPONENT_LEN` (line 36). -/
def MAX_COMPONENT_LEN : Nat := 100

/-- Whether a string ends in a space or a period. -/
def endsSpaceDot (s : Str) : Bool :=
  match s.reverse with
  | [] => false
  | c :: _ => c == ' ' || c == '.'

-- ---------------------------------------------------------------------------
-- Lemmas about `safe_component`
-- ---------------------------------------------------------------------------

theorem scNonEmpty_ne_nil (x : Str) : scNonEmpty x ≠ [] := by
  unfold scNonEmpty
  split <;> simp_all

theorem scBeforeTruncate_ne_nil (x : Str) : scBeforeTruncate x ≠ [] := by
  unfold scBeforeTruncate
  split <;> simp [scNonEmpty_ne_nil]

theorem upper_scBeforeTruncate_not_reserved (x : Str) :
    upperStr (scBeforeTruncate x) ∉ reservedNames := by
  have hhead : ∀ r ∈ reservedNames, r.head? ≠ some '_' := by decide
  unfold scBeforeTruncate
  by_cases hres : upperStr (scNonEmpty x) ∈ reservedNames
  · simp only [hres, if_true]
    intro hmem
    have := hhead _ hmem
    simp [upperStr] at this
  · rw [if_neg hres]; exact hres

theorem safe_component_ne_nil (x : Str) (m : Nat) (hm : 0 < m) :
    safe_component x m ≠ [] := by
  unfold safe_component
  have h4 := scBeforeTruncate_ne_nil x
  split
  · rename_i hgt
    simp only [ne_eq, List.take_eq_nil_iff]
    push_neg
    constructor
    · omega
    · exact h4
  · exact h4

theorem upper_safe_component_not_reserved (x : Str) (m : Nat) (hm : 5 ≤ m) :
    upperStr (safe_component x m) ∉ reservedNames := by
  have hlen : ∀ r ∈ reservedNames, r.length ≤ 4 := by decide
  unfold safe_component
  split
  · -- truncated: the result has length m ≥ 5, reserved names are at most 4 long
    rename_i hgt
    intro hmem
    have h1 : (upperStr ((scBeforeTruncate x).take m)).length ≤ 4 := hlen _ hmem
    have h2 : (upperStr ((scBeforeTruncate x).take m)).length =
        m ⊓ (scBeforeTruncate x).length := by
      simp [upperStr, List.length_take]
    omega
  · exact upper_scBeforeTruncate_not_reserved x

theorem safe_component_length_le (x : Str) (m : Nat) :
    (safe_component x m).length ≤ m := by
  unfold safe_component
  split
  · simp [List.length_take]
  · rename_i h; omega

theorem mem_rstripSpaceDot (c : Char) (s : Str) (h : c ∈ rstripSpaceDot s) : c ∈ s := by
  unfold rstripSpaceDot at h
  rw [List.mem_reverse] at h
  have := (List.dropWhile_sublist (l := s.reverse)
    (fun c => c == ' ' || c == '.')).mem h
  simpa using this

theorem mem_safe_component_not_invalid (x : Str) (m : Nat) :
    ∀ c ∈ safe_component x m, isInvalidChar c = false := by
  have h1 : ∀ c ∈ scSubInvalid x, isInvalidChar c = false := by
    intro c hc
    rcases List.mem_map.mp hc with ⟨a, _, ha⟩
    by_cases hia : isInvalidChar a
    · simp [hia] at ha; subst ha; decide
    · simp [hia] at ha; subst ha; simpa using hia
  have h3 : ∀ c ∈ scNonEmpty x, isInvalidChar c = false := by
    unfold scNonEmpty
    split
    · intro c hc; simp at hc; subst hc; decide
    · intro c hc; exact h1 _ (mem_rstripSpaceDot c _ hc)
  have h4 : ∀ c ∈ scBeforeTruncate x, isInvalidChar c = false := by
    unfold scBeforeTruncate
    split
    · intro c hc
      rcases List.mem_cons.mp hc with h | h
      · subst h; decide
      · exact h3 _ h
    · exact h3
  intro c hc
  unfold safe_component at hc
  revert hc
  split
  · intro hc; exact h4 _ ((List.take_sublist _ _).mem hc)
  · exact h4 c

theorem rstripSpaceDot_eq_self (s : Str) (h : endsSpaceDot s = false) :
    rstripSpaceDot s = s := by
  unfold rstripSpaceDot
  unfold endsSpaceDot at h
  match hrev : s.reverse with
  | [] =>
    have : s = [] := by simpa using congrArg List.reverse hrev
    simp [this]
  | c :: t =>
    rw [hrev] at h
    rw [List.dropWhile_cons, if_neg (by simp_all)]
    rw [← hrev, List.reverse_reverse]

theorem scSubInvalid_eq_self (s : Str) (h : ∀ c ∈ s, isInvalidChar c = false) :
    scSubInvalid s = s := by
  unfold scSubInvalid
  rw [List.map_congr_left (g := id) (fun a ha => by simp [h a ha]), List.map_id]

theorem safe_component_of_clean (y : Str) (m : Nat)
    (h1 : ∀ c ∈ y, isInvalidChar c = false)
    (h2 : endsSpaceDot y = false)
    (h3 : y ≠ [])
    (h4 : upperStr y ∉ reservedNames)
    (h5 : y.length ≤ m) :
    safe_component y m = y := by
  have e1 : scSubInvalid y = y := scSubInvalid_eq_self y h1
  have e2 : scNonEmpty y = y := by
    unfold scNonEmpty
    rw [e1, rstripSpaceDot_eq_self y h2, if_neg h3]
  have e3 : scBeforeTruncate y = y := by
    unfold scBeforeTruncate
    rw [e2, if_neg h4]
  unfold safe_component
  rw [e3, if_neg (by omega)]

/-- C5 counterexample: 99 `a`s followed by a space and a `b` sanitizes (at the
default maximum length 100) to 99 `a`s followed by a trailing space left by the
truncation cut, which a second application strips, breaking idempotence. -/
theorem safe_component_not_idempotent :
    safe_component
        (safe_component (List.replicate 99 'a' ++ [' ', 'b']) MAX_COMPONENT_LEN)
        MAX_COMPONENT_LEN ≠
      safe_component (List.replicate 99 'a' ++ [' ', 'b']) MAX_COMPONENT_LEN := by
  decide

/-- C5 (amended): `safe_component` at the default maximum component length is
idempotent on every input whose sanitized form does not end in a space or a
period (truncation, applied after the trailing-space/dot strip, can cut the
string right after such a character; a second application then strips it). -/
theorem safe_component_idempotent_no_trailing_artifact (x : Str)
    (h : endsSpaceDot (safe_component x MAX_COMPONENT_LEN) = false) :
    safe_component (safe_component x MAX_COMPONENT_LEN) MAX_COMPONENT_LEN =
      safe_component x MAX_COMPONENT_LEN := by
  apply safe_component_of_clean
  · exact mem_safe_component_not_invalid x MAX_COMPONENT_LEN
  · exact h
  · exact safe_component_ne_nil x MAX_COMPONENT_LEN (by decide)
  · exact upper_safe_component_not_reserved x MAX_COMPONENT_LEN (by decide)
  · exact safe_component_length_le x MAX_COMPONENT_LEN

/-- C5 witness: the amended idempotence theorem applied at the concrete
input `"a"`. -/
theorem safe_component_idempotent_no_trailing_artifact_witness :
    endsSpaceDot (safe_component ['a'] MAX_COMPONENT_LEN) = false ∧
      safe_component (safe_component ['a'] MAX_COMPONENT_LEN) MAX_COMPONENT_LEN =
        safe_component ['a'] MAX_COMPONENT_LEN :=
  ⟨by decide, safe_component_idempotent_no_trailing_artifact ['a'] (by decide)⟩

/-- C6 counterexample: at maximum component length 3 the truncation step cuts
`CONX` (not itself reserved) down to the reserved device name `CON`, so the
sanitizer's output can be reserved for small maximum lengths. -/
theorem safe_component_truncation_reexposes_reserved :
    safe_component ['C', 'O', 'N', 'X'] 3 = ['C', 'O', 'N'] ∧
      upperStr (safe_component ['C', 'O', 'N', 'X'] 3) ∈ reservedNames := by
  decide

/-- C6 (amended): for every maximum component length of at least 5 (reserved
device names are at most 4 characters long, so a truncated result of length
at least 5 can never be one), the upper-cased output of `safe_component` is
never a reserved device name, and an input whose (substituted, stripped,
non-empty) form upper-cases to a reserved name gains a leading underscore. -/
theorem safe_component_never_reserved (x : Str) (m : Nat) (hm : 5 ≤ m) :
    upperStr (safe_component x m) ∉ reservedNames ∧
      (upperStr (scNonEmpty x) ∈ reservedNames →
        scBeforeTruncate x = '_' :: scNonEmpty x) := by
  refine ⟨upper_safe_component_not_reserved x m hm, fun hres => ?_⟩
  unfold scBeforeTruncate
  rw [if_pos hres]

/-- C6 witness: the amended reserved-name theorem applied at the concrete
input `CON` with maximum length 5. -/
theorem safe_component_never_reserved_witness :
    5 ≤ 5 ∧
      (upperStr (safe_component ['C', 'O', 'N'] 5) ∉ reservedNames ∧
        (upperStr (scNonEmpty ['C', 'O', 'N']) ∈ reservedNames →
          scBeforeTruncate ['C', 'O', 'N'] = '_' :: scNonEmpty ['C', 'O', 'N'])) :=
  ⟨by decide, safe_component_never_reserved ['C', 'O', 'N'] 5 (by decide)⟩

-- ---------------------------------------------------------------------------
-- Quarantine path truncation (C9)
-- ---------------------------------------------------------------------------

/-- `truncate_rel_parts(rel)` (lines 633-637): every component of a relative
path is passed through `safe_component` at `MAX_COMPONENT_LEN`. -/
def truncate_rel_parts (parts : List Str) : List Str :=
  parts.map (fun p => safe_component p MAX_COMPONENT_LEN)

/-- Quarantine destination of a failed source file: `move_failed` (line 616)
builds `failed_root / rel_root / src_file.name`, and `walk_and_process`
passes `rel_root` through `truncate_rel_parts` first (lines 852-855, 870,
881, 913). -/
def quarantineDest (failedRoot : List Str) (relParts : List Str) (srcName : Str) :
    List Str :=
  failedRoot ++ truncate_rel_parts relParts ++ [srcName]

/-- C9: the quarantine destination mirrors the source's relative directory
structure with every segment sanitized and truncated: it is the quarantine
root followed by the sanitized segments followed by the original file name,
and every sanitized segment has length at most `MAX_COMPONENT_LEN`, so an
over-long source component cannot make the quarantine path over-long. -/
theorem quarantine_mirrors_truncated_structure (failedRoot relParts : List Str)
    (srcName : Str) :
    quarantineDest failedRoot relParts srcName =
      failedRoot ++ relParts.map (fun p => safe_component p MAX_COMPONENT_LEN) ++ [srcName] ∧
      ∀ p ∈ truncate_rel_parts relParts, p.length ≤ MAX_COMPONENT_LEN := by
  constructor
  · rfl
  · intro p hp
    rcases List.mem_map.mp hp with ⟨q, _, hq⟩
    rw [← hq]
    exact safe_component_length_le q MAX_COMPONENT_LEN

/-- C9 witness: a relative path with a 150-character component is quarantined
with that component truncated to 100 characters. -/
theorem quarantine_mirrors_truncated_structure_witness :
    (quarantineDest [['f']] [List.replicate 150 'a'] ['s'] =
        [['f']] ++ [List.replicate 150 'a'].map
          (fun p => safe_component p MAX_COMPONENT_LEN) ++ [['s']] ∧
      ∀ p ∈ truncate_rel_parts [List.replicate 150 'a'], p.length ≤ MAX_COMPONENT_LEN) ∧
      truncate_rel_parts [List.replicate 150 'a'] = [List.replicate 100 'a'] :=
  ⟨quarantine_mirrors_truncated_structure [['f']] [List.replicate 150 'a'] ['s'],
   by decide⟩

-- ---------------------------------------------------------------------------
-- Text utilities: UTF-8, percent-encoding, HTML escaping, `str.replace`
-- ---------------------------------------------------------------------------

/-- UTF-8 encoding of one character (code point below 0x110000). -/
def utf8EncodeChar (c : Char) : Bytes :=
  let n := c.toNat
  if n < 0x80 then [n]
  else if n < 0x800 then [0xC0 + n / 64, 0x80 + n % 64]
  else if n < 0x10000 then [0xE0 + n / 4096, 0x80 + (n / 64) % 64, 0x80 + n % 64]
  else [0xF0 + n / 262144, 0x80 + (n / 4096) % 64, 0x80 + (n / 64) % 64, 0x80 + n % 64]

/-- UTF-8 encoding of a string (Python `str.encode("utf-8")`). -/
def utf8Encode (s : Str) : Bytes := (s.map utf8EncodeChar).flatten

/-- Upper-case hexadecimal digit, as used by `urllib.parse.quote`. -/
def hexDigitUpper (n : Nat) : Char :=
  if n < 10 then Char.ofNat (48 + n) else Char.ofNat (55 + n)

/-- Whether `urllib.parse.quote` leaves the byte `b` unencoded: ASCII
letters, digits, `_.-~` (the always-safe set) and the caller's `safe`
characters (only ASCII ones are considered). -/
def isQuoteSafeByte (safe : List Char) (b : Nat) : Bool :=
  let c := Char.ofNat b
  (65 ≤ b && b ≤ 90) || (97 ≤ b && b ≤ 122) || (48 ≤ b && b ≤ 57) ||
  c == '_' || c == '.' || c == '-' || c == '~' ||
  (b < 128 && safe.contains c)

/-- `urllib.parse.quote(s, safe)`: UTF-8 encode, then percent-encode every
byte outside the safe set with upper-case hex. -/
def pquote (safe : List Char) (s : Str) : Str :=
  ((utf8Encode s).map (fun b =>
    if isQuoteSafeByte safe b then [Char.ofNat b]
    else ['%', hexDigitUpper (b / 16), hexDigitUpper (b % 16)])).flatten

/-- `html.escape` on one character (`quote=True` default: `&`, `<`, `>`,
`"` and the apostrophe are escaped; Python applies sequential `str.replace`
calls whose net effect on any input equals this per-character map). -/
def htmlEscapeChar (c : Char) : Str :=
  if c = '&' then "&amp;".data
  else if c = '<' then "&lt;".data
  else if c = '>' then "&gt;".data
  else if c = '"' then "&quot;".data
  else if c = Char.ofNat 39 then ['&', '#', 'x', '2', '7', ';']
  else [c]

/-- `html.escape(s)` (used at line 430). -/
def htmlEscape (s : Str) : Str := (s.map htmlEscapeChar).flatten

/-- Whether `s` starts with `p`. -/
def listStartsWith : Str → Str → Bool
  | _, [] => true
  | [], _ :: _ => false
  | a :: s, b :: p => a == b && listStartsWith s p

/-- Left-to-right non-overlapping replacement, one scanning step per unit of
fuel; `replaceAll` supplies fuel covering the whole string. -/
def replaceAllAux (p v : Str) : Nat → Str → Str
  | 0, s => s
  | fuel + 1, s =>
    match s with
    | [] => []
    | c :: rest =>
      if listStartsWith (c :: rest) p then
        v ++ replaceAllAux p v fuel (List.drop p.length (c :: rest))
      else c :: replaceAllAux p v fuel rest

/-- Python `s.replace(p, v)`: non-overlapping left-to-right substitution; an
empty pattern interleaves the replacement between all characters. -/
def replaceAll (s p v : Str) : Str :=
  if p = [] then v ++ (s.map (fun c => c :: v)).flatten
  else replaceAllAux p v s.length s

-- ---------------------------------------------------------------------------
-- The final catch-all substitution pass (C3)
-- ---------------------------------------------------------------------------

/-- One mapping entry of the final pass (lines 428-431): the original
reference is replaced in raw, HTML-escaped and percent-encoded
(`urllib.parse.quote` with its default safe set `/`) form. -/
def catchAllReplace (t : Str) (orig loc : Str) : Str :=
  replaceAll (replaceAll (replaceAll t orig loc) (htmlEscape orig) loc)
    (pquote ['/'] orig) loc

/-- Stable insertion keeping the list sorted by non-increasing key length,
modelling Python's stable `sorted(..., key=lambda kv: -len(kv[0]))`. -/
def insertByLenDesc (x : Str × Str) : List (Str × Str) → List (Str × Str)
  | [] => [x]
  | y :: ys => if x.1.length ≤ y.1.length then y :: insertByLenDesc x ys
               else x :: y :: ys

/-- `sorted(url_to_local.items(), key=lambda kv: -len(kv[0]))` (line 427). -/
def sortByLenDesc (l : List (Str × Str)) : List (Str × Str) :=
  l.foldl (fun acc x => insertByLenDesc x acc) []

/-- The final catch-all pass (lines 426-433): every mapping, processed from
longest original reference to shortest, is substituted in raw, escaped and
percent-encoded form. -/
def finalCatchAllPass (umap : List (Str × Str)) (t : Str) : Str :=
  (sortByLenDesc umap).foldl (fun acc kv => catchAllReplace acc kv.1 kv.2) t

/-- C3: with two mapped references where the first is shorter than the
second, the final catch-all pass substitutes the longer reference first, so
text containing the longer reference receives the longer reference's
mapping; on the spec's example (`/img.png` to `a.png`, `/sub/img.png` to
`b.png`) text containing `/sub/img.png` yields `b.png`, not `a.png` with a
leftover `/sub/`. -/
theorem final_pass_longest_key_first :
    (∀ (A B la lb t : Str), A.length < B.length →
      finalCatchAllPass [(A, la), (B, lb)] t =
        catchAllReplace (catchAllReplace t B lb) A la) ∧
    finalCatchAllPass
        [("/img.png".data, "a.png".data), ("/sub/img.png".data, "b.png".data)]
        "<img src=\"/sub/img.png\">".data =
      "<img src=\"b.png\">".data := by
  constructor
  · intro A B la lb t h
    have h1 : insertByLenDesc (A, la) [] = [(A, la)] := rfl
    have h2 : insertByLenDesc (B, lb) [(A, la)] = [(B, lb), (A, la)] := by
      simp only [insertByLenDesc]
      rw [if_neg]
      show ¬(B.length ≤ A.length)
      omega
    unfold finalCatchAllPass sortByLenDesc
    simp only [List.foldl_cons, List.foldl_nil, h1, h2]
  · decide

/-- C3 witness: the longest-key-first theorem applied to the spec's example
mapping. -/
theorem final_pass_longest_key_first_witness :
    ("/img.png".data.length < "/sub/img.png".data.length) ∧
      finalCatchAllPass
          [("/img.png".data, "a.png".data), ("/sub/img.png".data, "b.png".data)]
          "x /sub/img.png y".data =
        catchAllReplace
          (catchAllReplace "x /sub/img.png y".data "/sub/img.png".data "b.png".data)
          "/img.png".data "a.png".data :=
  ⟨by decide,
   final_pass_longest_key_first.1 "/img.png".data "/sub/img.png".data
     "a.png".data "b.png".data "x /sub/img.png y".data (by decide)⟩

-- ---------------------------------------------------------------------------
-- Path component helpers (PurePath name/stem/suffix semantics)
-- ---------------------------------------------------------------------------

/-- Windows path separators (the script targets Windows `Path`s). -/
def isPathSep (c : Char) : Bool := c == '/' || c == '\\'

/-- Split a string at every character satisfying `p`. -/
def splitBy (p : Char → Bool) (s : Str) : List Str :=
  s.foldr (fun c acc =>
    if p c then [] :: acc
    else match acc with
      | [] => [[c]]
      | h :: t => (c :: h) :: t) [[]]

/-- The components of a path as parsed by `pathlib` (empty and `.` segments
are dropped; drive letters are not modelled — no claim evaluates one). -/
def pathComponents (p : Str) : List Str :=
  (splitBy isPathSep p).filter (fun c => !(c = [] || c = ['.']))

/-- `PurePath(p).name`: the final path component (empty for a bare `.` or a
root). -/
def pathName (p : Str) : Str := (pathComponents p).getLast?.getD []

/-- The suffix of a plain file name: from the last dot `.` when that dot is
neither the first nor the last character, else empty (CPython
`PurePath.suffix`). -/
def nameSuffix (nm : Str) : Str :=
  let post := nm.reverse.takeWhile (fun c => !(c == '.'))
  if post.length = nm.length then []
  else if 0 < nm.length - 1 - post.length ∧ 0 < post.length then '.' :: post.reverse
  else []

/-- `PurePath(p).suffix`. -/
def pathSuffix (p : Str) : Str := nameSuffix (pathName p)

/-- `PurePath(p).stem`: the name with its suffix removed. -/
def pathStem (p : Str) : Str :=
  (pathName p).take ((pathName p).length - (nameSuffix (pathName p)).length)

-- ---------------------------------------------------------------------------
-- PDF stage (C7, C8, C10)
-- ---------------------------------------------------------------------------

/-- A directory is an association list from file names to contents (abstract
content identifiers suffice for the PDF stage). -/
def fsLookup (fs : List (Str × Nat)) (p : Str) : Option Nat :=
  (fs.find? (fun e => decide (e.1 = p))).map Prod.snd

/-- Create or overwrite a file. -/
def fsSet (fs : List (Str × Nat)) (p : Str) (v : Nat) : List (Str × Nat) :=
  if fs.any (fun e => decide (e.1 = p)) then
    fs.map (fun e => if e.1 = p then (p, v) else e)
  else fs ++ [(p, v)]

/-- Delete a file (no-op when absent). -/
def fsRemove (fs : List (Str × Nat)) (p : Str) : List (Str × Nat) :=
  fs.filter (fun e => !decide (e.1 = p))

/-- `safe_pdf_filename(orig_name, max_stem)` (lines 517-532). The NFKC
Unicode normalization of line 522 is the library call
`unicodedata.normalize("NFKC", ...)`; it is abstracted as the function
parameter `nfkcF` (the theorems that evaluate this definition supply an
`nfkcF` together with the hypothesis pinning its value on the concrete
ASCII input used, where NFKC is the identity). -/
def safe_pdf_filename (nfkcF : Str → Str) (origName : Str) (maxStem : Nat) : Str :=
  let name := nfkcF origName
  let stem1 := rstripSpaceDot (scSubInvalid (pathStem name))
  let stem2 := if stem1 = [] then ['_'] else stem1
  let stem3 := if upperStr stem2 ∈ reservedNames then '_' :: stem2 else stem2
  let stem4 := if stem3.length > maxStem then stem3.take maxStem else stem3
  stem4 ++ ".pdf".data

/-- Outcome of one external renderer invocation: exit code 0 with the
rendered content, or a non-zero exit code. -/
inductive RenderOutcome
  | ok (content : Nat)
  | fail (code : Nat)

/-- Error raised when the renderer exits non-zero (lines 597-605). -/
def errRender : Str := "wkhtmltopdf failed".data

/-- Error raised when moving the temp file into place fails (lines 589-596). -/
def errMove : Str := "move failed".data

/-- `html_to_pdf` (lines 535-612), modelled over the destination directory:
the destination filename is re-derived by `safe_pdf_filename` (line 553);
`mkstemp` creates a fresh empty temp file (lines 557-558); on renderer
success the pre-existing destination is removed and the temp file moved
into its place (lines 584-588); on renderer or move failure the temp file
is removed and an error is returned (lines 589-612; a failing move is
modelled as leaving the destination untouched). -/
def html_to_pdf (nfkcF : Str → Str) (fs : List (Str × Nat)) (tmpName destName : Str)
    (outcome : RenderOutcome) (moveOk : Bool) : Option Str × List (Str × Nat) :=
  let sanitized := safe_pdf_filename nfkcF destName 180
  let fs1 := fsSet fs tmpName 0
  match outcome with
  | RenderOutcome.fail _ => (some errRender, fsRemove fs1 tmpName)
  | RenderOutcome.ok c =>
    let fs2 := fsSet fs1 tmpName c
    if moveOk then
      (none, fsSet (fsRemove (fsRemove fs2 sanitized) tmpName) sanitized c)
    else (some errMove, fsRemove fs2 tmpName)

/-- The PDF retry loop of `process_single_file` (lines 791-803) and
`walk_and_process` (lines 890-903): up to 3 attempts, sleeping
`0.3 * attempt` seconds (recorded in tenths of a second) after each failed
attempt except the last. Each attempt is described by its fresh temp name,
renderer outcome and move outcome. -/
def pdfRetryLoop (nfkcF : Str → Str) (destName : Str) :
    List (Str × RenderOutcome × Bool) → Nat → List (Str × Nat) → List Nat →
      Bool × List (Str × Nat) × List Nat
  | [], _, fs, sleeps => (false, fs, sleeps)
  | (tmp, outcome, mv) :: rest, attempt, fs, sleeps =>
    match html_to_pdf nfkcF fs tmp destName outcome mv with
    | (none, fs2) => (true, fs2, sleeps)
    | (some _, fs2) =>
      if attempt < 3 then
        pdfRetryLoop nfkcF destName rest (attempt + 1) fs2 (sleeps ++ [3 * attempt])
      else (false, fs2, sleeps)

-- filesystem lemmas

theorem find_none_of_fsLookup_none (fs : List (Str × Nat)) (p : Str)
    (h : fsLookup fs p = none) :
    fs.find? (fun e => decide (e.1 = p)) = none := by
  unfold fsLookup at h
  cases hf : fs.find? (fun e => decide (e.1 = p)) with
  | none => rfl
  | some x => rw [hf] at h; simp at h

theorem key_ne_of_fsLookup_none (fs : List (Str × Nat)) (p : Str)
    (h : fsLookup fs p = none) : ∀ e ∈ fs, e.1 ≠ p := by
  intro e he
  have := List.find?_eq_none.mp (find_none_of_fsLookup_none fs p h) e he
  simpa using this

theorem fsSet_of_none (fs : List (Str × Nat)) (p : Str) (v : Nat)
    (h : fsLookup fs p = none) : fsSet fs p v = fs ++ [(p, v)] := by
  unfold fsSet
  rw [if_neg]
  intro hany
  rcases List.any_eq_true.mp hany with ⟨e, he, hep⟩
  exact key_ne_of_fsLookup_none fs p h e he (by simpa using hep)

theorem fsRemove_of_none (fs : List (Str × Nat)) (p : Str)
    (h : fsLookup fs p = none) : fsRemove fs p = fs := by
  unfold fsRemove
  apply List.filter_eq_self.mpr
  intro e he
  simpa using key_ne_of_fsLookup_none fs p h e he

theorem fsRemove_append_single_ne (fs : List (Str × Nat)) (p q : Str) (v : Nat)
    (h : q ≠ p) : fsRemove (fs ++ [(q, v)]) p = fsRemove fs p ++ [(q, v)] := by
  unfold fsRemove
  rw [List.filter_append]
  simp [h]

theorem fsRemove_append_single_self (fs : List (Str × Nat)) (p : Str) (v : Nat)
    (h : fsLookup fs p = none) : fsRemove (fs ++ [(p, v)]) p = fs := by
  unfold fsRemove
  rw [List.filter_append]
  have h1 := fsRemove_of_none fs p h
  unfold fsRemove at h1
  rw [h1]
  simp

theorem fsSet_append_self (fs : List (Str × Nat)) (p : Str) (v w : Nat)
    (h : fsLookup fs p = none) : fsSet (fs ++ [(p, v)]) p w = fs ++ [(p, w)] := by
  unfold fsSet
  rw [if_pos]
  · rw [List.map_append]
    congr 1
    · have : fs.map (fun e => if e.1 = p then (p, w) else e) = fs.map id := by
        apply List.map_congr_left
        intro e he
        rw [if_neg (key_ne_of_fsLookup_none fs p h e he)]
        rfl
      rw [this, List.map_id]
    · simp
  · apply List.any_eq_true.mpr
    exact ⟨(p, v), by simp, by simp⟩

theorem fsLookup_fsRemove_other (fs : List (Str × Nat)) (p q : Str)
    (h : fsLookup fs q = none) : fsLookup (fsRemove fs p) q = none := by
  unfold fsLookup fsRemove
  have : List.find? (fun e => decide (e.1 = q))
      (fs.filter (fun e => !decide (e.1 = p))) = none := by
    apply List.find?_eq_none.mpr
    intro e he
    simpa using key_ne_of_fsLookup_none fs q h e (List.mem_of_mem_filter he)
  rw [this]
  rfl

theorem fsLookup_fsRemove_self (fs : List (Str × Nat)) (p : Str) :
    fsLookup (fsRemove fs p) p = none := by
  unfold fsLookup fsRemove
  have : List.find? (fun e => decide (e.1 = p))
      (fs.filter (fun e => !decide (e.1 = p))) = none := by
    apply List.find?_eq_none.mpr
    intro e he
    have := List.of_mem_filter he
    simpa using this
  rw [this]
  rfl

theorem html_to_pdf_ok_move (nfkcF : Str → Str) (fs : List (Str × Nat))
    (tmp dest : Str) (c : Nat)
    (htmp : fsLookup fs tmp = none)
    (hne : tmp ≠ safe_pdf_filename nfkcF dest 180) :
    html_to_pdf nfkcF fs tmp dest (RenderOutcome.ok c) true =
      (none, fsRemove fs (safe_pdf_filename nfkcF dest 180) ++
        [(safe_pdf_filename nfkcF dest 180, c)]) := by
  have hrm : fsLookup (fsRemove fs (safe_pdf_filename nfkcF dest 180)) tmp = none :=
    fsLookup_fsRemove_other fs _ tmp htmp
  unfold html_to_pdf
  simp only []
  rw [fsSet_of_none fs tmp 0 htmp, fsSet_append_self fs tmp 0 c htmp, if_pos trivial,
    fsRemove_append_single_ne fs (safe_pdf_filename nfkcF dest 180) tmp c hne,
    fsRemove_append_single_self _ tmp c hrm,
    fsSet_of_none _ _ _ (fsLookup_fsRemove_self fs (safe_pdf_filename nfkcF dest 180))]

theorem html_to_pdf_fail (nfkcF : Str → Str) (fs : List (Str × Nat))
    (tmp dest : Str) (k : Nat) (mv : Bool)
    (htmp : fsLookup fs tmp = none) :
    html_to_pdf nfkcF fs tmp dest (RenderOutcome.fail k) mv = (some errRender, fs) := by
  unfold html_to_pdf
  simp only []
  rw [fsSet_of_none fs tmp 0 htmp, fsRemove_append_single_self fs tmp 0 htmp]

theorem html_to_pdf_move_fails (nfkcF : Str → Str) (fs : List (Str × Nat))
    (tmp dest : Str) (c : Nat)
    (htmp : fsLookup fs tmp = none) :
    html_to_pdf nfkcF fs tmp dest (RenderOutcome.ok c) false = (some errMove, fs) := by
  unfold html_to_pdf
  simp only []
  rw [fsSet_of_none fs tmp 0 htmp, fsSet_append_self fs tmp 0 c htmp, if_neg (by simp),
    fsRemove_append_single_self fs tmp c htmp]

/-- C7: the PDF stage writes the renderer's output to a fresh temporary file
in the destination directory and replaces any pre-existing destination file
with it only after the renderer exits successfully (the old destination is
removed and the temp file takes its place in one `os.replace`); whenever the
renderer invocation or the move fails, the temporary file is removed (the
directory is exactly as before the call) and an error is raised. -/
theorem html_to_pdf_temp_file_discipline (nfkcF : Str → Str)
    (fs : List (Str × Nat)) (tmp dest : Str) (c k : Nat) (mv : Bool)
    (htmp : fsLookup fs tmp = none)
    (hne : tmp ≠ safe_pdf_filename nfkcF dest 180) :
    html_to_pdf nfkcF fs tmp dest (RenderOutcome.ok c) true =
      (none, fsRemove fs (safe_pdf_filename nfkcF dest 180) ++
        [(safe_pdf_filename nfkcF dest 180, c)]) ∧
    html_to_pdf nfkcF fs tmp dest (RenderOutcome.fail k) mv = (some errRender, fs) ∧
    html_to_pdf nfkcF fs tmp dest (RenderOutcome.ok c) false = (some errMove, fs) :=
  ⟨html_to_pdf_ok_move nfkcF fs tmp dest c htmp hne,
   html_to_pdf_fail nfkcF fs tmp dest k mv htmp,
   html_to_pdf_move_fails nfkcF fs tmp dest c htmp⟩

/-- C7 witness: the temp-file discipline theorem applied to a concrete call
(an empty destination directory, temp name `t`, destination `d.pdf`,
renderer content 7, failing exit code 1). -/
theorem html_to_pdf_temp_file_discipline_witness :
    html_to_pdf (fun s => s) [] ['t'] "d.pdf".data (RenderOutcome.ok 7) true =
      (none, fsRemove [] (safe_pdf_filename (fun s => s) "d.pdf".data 180) ++
        [(safe_pdf_filename (fun s => s) "d.pdf".data 180, 7)]) ∧
    html_to_pdf (fun s => s) [] ['t'] "d.pdf".data (RenderOutcome.fail 1) true =
      (some errRender, []) ∧
    html_to_pdf (fun s => s) [] ['t'] "d.pdf".data (RenderOutcome.ok 7) false =
      (some errMove, []) :=
  html_to_pdf_temp_file_discipline (fun s => s) [] ['t'] "d.pdf".data 7 1 true
    (by decide) (by decide)

/-- C8: a renderer invocation that fails on the first two attempts and
succeeds on the third reports overall success: the retry loop sleeps
0.3 s × attempt number (recorded in tenths of a second, so `[3, 6]`) after
each of the two failed attempts, each failed attempt leaves the destination
directory exactly as it was (its temp file is removed), and the third
attempt atomically places exactly one output file under the re-derived
destination name. -/
theorem pdf_retry_two_failures_then_success (nfkcF : Str → Str)
    (fs : List (Str × Nat)) (dest t1 t2 t3 : Str) (k1 k2 c : Nat) (b1 b2 : Bool)
    (h1 : fsLookup fs t1 = none) (h2 : fsLookup fs t2 = none)
    (h3 : fsLookup fs t3 = none)
    (hne : t3 ≠ safe_pdf_filename nfkcF dest 180) :
    pdfRetryLoop nfkcF dest
        [(t1, RenderOutcome.fail k1, b1), (t2, RenderOutcome.fail k2, b2),
         (t3, RenderOutcome.ok c, true)] 1 fs [] =
      (true,
       fsRemove fs (safe_pdf_filename nfkcF dest 180) ++
         [(safe_pdf_filename nfkcF dest 180, c)],
       [3, 6]) := by
  unfold pdfRetryLoop
  rw [html_to_pdf_fail nfkcF fs t1 dest k1 b1 h1]
  simp only [if_pos (by omega : (1 : Nat) < 3)]
  unfold pdfRetryLoop
  rw [html_to_pdf_fail nfkcF fs t2 dest k2 b2 h2]
  simp only [if_pos (by omega : (2 : Nat) < 3)]
  unfold pdfRetryLoop
  rw [html_to_pdf_ok_move nfkcF fs t3 dest c h3 hne]
  simp

/-- C8 witness: the retry theorem applied to a concrete run over an empty
destination directory with temp names `t1`, `t2`, `t3`. -/
theorem pdf_retry_two_failures_then_success_witness :
    pdfRetryLoop (fun s => s) "d.pdf".data
        [("t1".data, RenderOutcome.fail 1, true), ("t2".data, RenderOutcome.fail 1, true),
         ("t3".data, RenderOutcome.ok 7, true)] 1 [] [] =
      (true,
       fsRemove [] (safe_pdf_filename (fun s => s) "d.pdf".data 180) ++
         [(safe_pdf_filename (fun s => s) "d.pdf".data 180, 7)],
       [3, 6]) :=
  pdf_retry_two_failures_then_success (fun s => s) [] "d.pdf".data
    "t1".data "t2".data "t3".data 1 1 7 true true
    (by decide) (by decide) (by decide) (by decide)

/-- C10: `html_to_pdf` re-derives the destination filename with
`safe_pdf_filename` — on renderer success the output lands under the
re-derived name — and the re-derived name can differ from the requested
one: for any normalization function fixing the ASCII name `a<b.pdf`
(NFKC is the identity on ASCII), `safe_pdf_filename` turns it into
`a_b.pdf`. -/
theorem html_to_pdf_rederives_filename (nfkcF : Str → Str)
    (fs : List (Str × Nat)) (tmp dest : Str) (c : Nat)
    (htmp : fsLookup fs tmp = none)
    (hne : tmp ≠ safe_pdf_filename nfkcF dest 180)
    (hascii : nfkcF "a<b.pdf".data = "a<b.pdf".data) :
    (html_to_pdf nfkcF fs tmp dest (RenderOutcome.ok c) true).2 =
      fsRemove fs (safe_pdf_filename nfkcF dest 180) ++
        [(safe_pdf_filename nfkcF dest 180, c)] ∧
    safe_pdf_filename nfkcF "a<b.pdf".data 180 = "a_b.pdf".data ∧
    "a_b.pdf".data ≠ "a<b.pdf".data := by
  refine ⟨?_, ?_, by decide⟩
  · rw [html_to_pdf_ok_move nfkcF fs tmp dest c htmp hne]
  · unfold safe_pdf_filename
    rw [hascii]
    decide

/-- C10 witness: the filename-re-derivation theorem applied with the
identity as normalization function, an empty directory, temp name `t` and
requested destination `a<b.pdf` — the output is written as `a_b.pdf`. -/
theorem html_to_pdf_rederives_filename_witness :
    ((html_to_pdf (fun s => s) [] ['t'] "a<b.pdf".data (RenderOutcome.ok 7) true).2 =
      fsRemove [] (safe_pdf_filename (fun s => s) "a<b.pdf".data 180) ++
        [(safe_pdf_filename (fun s => s) "a<b.pdf".data 180, 7)] ∧
    safe_pdf_filename (fun s => s) "a<b.pdf".data 180 = "a_b.pdf".data ∧
    "a_b.pdf".data ≠ "a<b.pdf".data) :=
  html_to_pdf_rederives_filename (fun s => s) [] ['t'] "a<b.pdf".data 7
    (by decide) (by decide) rfl

-- ---------------------------------------------------------------------------
-- Character decoding (Python bytes.decode)
-- ---------------------------------------------------------------------------

/-- A UTF-8 continuation byte. -/
def utf8Cont (b : Nat) : Bool := decide (0x80 ≤ b) && decide (b ≤ 0xBF)

/-- Valid second byte of a three-byte UTF-8 sequence with lead `b` (excludes
overlong encodings and surrogates, as Python's strict decoder does). -/
def utf8Second3 (b b1 : Nat) : Bool :=
  if b = 0xE0 then decide (0xA0 ≤ b1) && decide (b1 ≤ 0xBF)
  else if b = 0xED then decide (0x80 ≤ b1) && decide (b1 ≤ 0x9F)
  else utf8Cont b1

/-- Valid second byte of a four-byte UTF-8 sequence with lead `b`. -/
def utf8Second4 (b b1 : Nat) : Bool :=
  if b = 0xF0 then decide (0x90 ≤ b1) && decide (b1 ≤ 0xBF)
  else if b = 0xF4 then decide (0x80 ≤ b1) && decide (b1 ≤ 0x8F)
  else utf8Cont b1

/-- Strict UTF-8 decoding (`bytes.decode("utf-8")`): `none` on any invalid
sequence. -/
def utf8DecodeStrict : Bytes → Option Str
  | [] => some []
  | b :: rest =>
    if b < 0x80 then (utf8DecodeStrict rest).map (fun t => Char.ofNat b :: t)
    else if 0xC2 ≤ b ∧ b ≤ 0xDF then
      match rest with
      | b1 :: rest1 =>
        if utf8Cont b1 then
          (utf8DecodeStrict rest1).map
            (fun t => Char.ofNat ((b - 0xC0) * 64 + (b1 - 0x80)) :: t)
        else none
      | [] => none
    else if 0xE0 ≤ b ∧ b ≤ 0xEF then
      match rest with
      | b1 :: b2 :: rest2 =>
        if utf8Second3 b b1 && utf8Cont b2 then
          (utf8DecodeStrict rest2).map
            (fun t => Char.ofNat ((b - 0xE0) * 4096 + (b1 - 0x80) * 64 + (b2 - 0x80)) :: t)
        else none
      | _ => none
    else if 0xF0 ≤ b ∧ b ≤ 0xF4 then
      match rest with
      | b1 :: b2 :: b3 :: rest3 =>
        if utf8Second4 b b1 && utf8Cont b2 && utf8Cont b3 then
          (utf8DecodeStrict rest3).map
            (fun t => Char.ofNat ((b - 0xF0) * 262144 + (b1 - 0x80) * 4096 +
              (b2 - 0x80) * 64 + (b3 - 0x80)) :: t)
        else none
      | _ => none
    else none

/-- The Unicode replacement character. -/
def fffd : Char := Char.ofNat 0xFFFD

/-- UTF-8 decoding with `errors="replace"`, one scanning step per unit of
fuel: each invalid or truncated sequence contributes a replacement
character and scanning resumes at the offending byte. -/
def utf8DecodeReplaceAux : Nat → Bytes → Str
  | 0, _ => []
  | fuel + 1, bs =>
    match bs with
    | [] => []
    | b :: rest =>
      if b < 0x80 then Char.ofNat b :: utf8DecodeReplaceAux fuel rest
      else if 0xC2 ≤ b ∧ b ≤ 0xDF then
        match rest with
        | b1 :: rest1 =>
          if utf8Cont b1 then
            Char.ofNat ((b - 0xC0) * 64 + (b1 - 0x80)) :: utf8DecodeReplaceAux fuel rest1
          else fffd :: utf8DecodeReplaceAux fuel rest
        | [] => [fffd]
      else if 0xE0 ≤ b ∧ b ≤ 0xEF then
        match rest with
        | b1 :: rest1 =>
          if utf8Second3 b b1 then
            match rest1 with
            | b2 :: rest2 =>
              if utf8Cont b2 then
                Char.ofNat ((b - 0xE0) * 4096 + (b1 - 0x80) * 64 + (b2 - 0x80)) ::
                  utf8DecodeReplaceAux fuel rest2
              else fffd :: utf8DecodeReplaceAux fuel rest1
            | [] => [fffd]
          else fffd :: utf8DecodeReplaceAux fuel rest
        | [] => [fffd]
      else if 0xF0 ≤ b ∧ b ≤ 0xF4 then
        match rest with
        | b1 :: rest1 =>
          if utf8Second4 b b1 then
            match rest1 with
            | b2 :: rest2 =>
              if utf8Cont b2 then
                match rest2 with
                | b3 :: rest3 =>
                  if utf8Cont b3 then
                    Char.ofNat ((b - 0xF0) * 262144 + (b1 - 0x80) * 4096 +
                      (b2 - 0x80) * 64 + (b3 - 0x80)) :: utf8DecodeReplaceAux fuel rest3
                  else fffd :: utf8DecodeReplaceAux fuel rest2
                | [] => [fffd]
              else fffd :: utf8DecodeReplaceAux fuel rest1
            | [] => [fffd]
          else fffd :: utf8DecodeReplaceAux fuel rest
        | [] => [fffd]
      else fffd :: utf8DecodeReplaceAux fuel rest

/-- UTF-8 decoding with `errors="replace"` (every step consumes at least one
byte, so fuel equal to the length covers the whole input). -/
def utf8DecodeReplace (bs : Bytes) : Str := utf8DecodeReplaceAux bs.length bs

/-- Latin-1 decoding (`bytes.decode("latin-1")`): always succeeds, byte to
code point. -/
def latin1Decode (bs : Bytes) : Str := bs.map Char.ofNat

/-- The decode chain applied by the script to byte payloads: UTF-8, then
Latin-1 (which never fails), e.g. lines 197-205 and 490-497. -/
def decodeBytesPy (bs : Bytes) : Option Str :=
  match utf8DecodeStrict bs with
  | some t => some t
  | none => some (latin1Decode bs)

-- ---------------------------------------------------------------------------
-- Percent-decoding (urllib.parse.unquote)
-- ---------------------------------------------------------------------------

/-- ASCII hexadecimal digit. -/
def isHexDigitChar (c : Char) : Bool :=
  ('0' ≤ c && c ≤ '9') || ('a' ≤ c && c ≤ 'f') || ('A' ≤ c && c ≤ 'F')

/-- Value of a hexadecimal digit. -/
def hexVal (c : Char) : Nat :=
  if c.toNat ≤ 57 then c.toNat - 48
  else if c.toNat ≤ 70 then c.toNat - 55
  else c.toNat - 87

/-- Scanner for `urllib.parse.unquote`, one step per unit of fuel: maximal
runs of valid `%XX` escapes are collected as bytes and decoded as UTF-8
with replacement; any other character flushes the pending bytes and passes
through; a `%` not followed by two hex digits stays literal. -/
def punquoteAux : Nat → Str → Bytes → Str
  | 0, _, pending => utf8DecodeReplace pending
  | fuel + 1, s, pending =>
    match s with
    | [] => utf8DecodeReplace pending
    | c :: rest =>
      if c = '%' then
        match rest with
        | h1 :: h2 :: rest2 =>
          if isHexDigitChar h1 && isHexDigitChar h2 then
            punquoteAux fuel rest2 (pending ++ [hexVal h1 * 16 + hexVal h2])
          else utf8DecodeReplace pending ++ '%' :: punquoteAux fuel rest []
        | _ => utf8DecodeReplace pending ++ '%' :: punquoteAux fuel rest []
      else utf8DecodeReplace pending ++ c :: punquoteAux fuel rest []

/-- `urllib.parse.unquote(s)` with the default UTF-8/replace handling; a
string without `%` is returned unchanged (CPython short-circuit). -/
def punquote (s : Str) : Str :=
  if s.contains '%' then punquoteAux s.length s [] else s

-- ---------------------------------------------------------------------------
-- URL parsing (urllib.parse.urlparse / urlunparse)
-- ---------------------------------------------------------------------------

/-- Characters allowed in a URL scheme after the first (CPython
`scheme_chars`). -/
def isSchemeChar (c : Char) : Bool :=
  c.isAlpha || c.isDigit || c == '+' || c == '-' || c == '.'

/-- Split at the first occurrence of `t`: text before, and text after when
`t` occurs. -/
def splitFirstOn (t : Char) : Str → Str × Option Str
  | [] => ([], none)
  | c :: rest =>
    if c = t then ([], some rest)
    else
      match splitFirstOn t rest with
      | (pre, post) => (c :: pre, post)

/-- The six named parts of `urllib.parse.urlparse`. -/
structure UrlParts where
  scheme : Str
  netloc : Str
  path : Str
  params : Str
  query : Str
  fragment : Str

/-- Scheme recognition of CPython `urlsplit`: a leading `name:` whose name
starts with an ASCII letter and contains only scheme characters is split
off and lower-cased. -/
def urlsplitScheme (url : Str) : Str × Str :=
  match splitFirstOn ':' url with
  | (pre, some post) =>
    (match pre with
     | [] => ([], url)
     | c0 :: _ =>
       if c0.isAlpha ∧ pre.all isSchemeChar then (pre.map Char.toLower, post)
       else ([], url))
  | (_, none) => ([], url)

/-- Netloc recognition: after `//`, up to the next `/`, `?` or `#`. -/
def urlsplitNetloc (rest : Str) : Str × Str :=
  if listStartsWith rest ['/', '/'] then
    (let after := rest.drop 2
     let n := after.takeWhile (fun c => !(c == '/' || c == '?' || c == '#'))
     (n, after.drop n.length))
  else ([], rest)

/-- Parameter splitting of `urlparse` (CPython `_splitparams`): the part of
the last path segment after a `;`. -/
def splitParams (url : Str) : Str × Str :=
  if url.contains '/' then
    (let seg := (url.reverse.takeWhile (fun c => !(c == '/'))).reverse
     match splitFirstOn ';' seg with
     | (pre, some post) => (url.take (url.length - seg.length) ++ pre, post)
     | (_, none) => (url, []))
  else
    match splitFirstOn ';' url with
    | (pre, some post) => (pre, post)
    | (_, none) => (url, [])

/-- `urllib.parse.urlparse(url)` (scheme, netloc, fragment, query, params in
CPython's order of extraction). -/
def urlparse (url : Str) : UrlParts :=
  match urlsplitScheme url with
  | (scheme, r1) =>
    match urlsplitNetloc r1 with
    | (netloc, r2) =>
      match splitFirstOn '#' r2 with
      | (r3, fragOpt) =>
        match splitFirstOn '?' r3 with
        | (r4, queryOpt) =>
          match splitParams r4 with
          | (path, params) =>
            ⟨scheme, netloc, path, params, queryOpt.getD [], fragOpt.getD []⟩

/-- `urllib.parse.urlunparse(parsed._replace(scheme=""))` (line 373):
reassemble the URL with an empty scheme. -/
def urlunparseNoScheme (u : UrlParts) : Str :=
  let url0 := if u.params ≠ [] then u.path ++ ';' :: u.params else u.path
  let url1 :=
    if u.netloc ≠ [] ∨ listStartsWith url0 ['/', '/'] then
      '/' :: '/' :: u.netloc ++
        (if url0 ≠ [] ∧ ¬(listStartsWith url0 ['/']) then '/' :: url0 else url0)
    else url0
  let url2 := if u.query ≠ [] then url1 ++ '?' :: u.query else url1
  if u.fragment ≠ [] then url2 ++ '#' :: u.fragment else url2

-- ---------------------------------------------------------------------------
-- Decimal printing (Python f-string `{i}` for a non-negative integer)
-- ---------------------------------------------------------------------------

/-- Decimal digits of `n`, most significant first, by structural recursion
on a fuel bound (any fuel at least `n` yields the full representation). -/
def natDecimalAux : Nat → Nat → Str
  | 0, n => [Char.ofNat (48 + n % 10)]
  | fuel + 1, n =>
    if n < 10 then [Char.ofNat (48 + n)]
    else natDecimalAux fuel (n / 10) ++ [Char.ofNat (48 + n % 10)]

/-- Decimal representation of a natural number, most significant digit
first. -/
def natDecimal (n : Nat) : Str := natDecimalAux n n

-- ---------------------------------------------------------------------------
-- The parsed container and its capability probes
-- ---------------------------------------------------------------------------

/-- Per-character lower-casing (Python `str.lower()`; the compared literals
are ASCII, where the two agree). -/
def lowerStr (s : Str) : Str := s.map Char.toLower

/-- Python substring test `pat in s`. -/
def containsSub (s pat : Str) : Bool :=
  if listStartsWith s pat then true
  else
    match s with
    | [] => false
    | _ :: rest => containsSub rest pat

/-- A resource payload as stored in the container: raw bytes or text. -/
inductive Payload
  | bin (bs : Bytes)
  | txt (s : Str)

/-- One entry of the container's resource collections. The parsing library
exposes resources as objects probed through chains of conventional
attribute names (`url`/`URL`/`path`/..., `mimeType`/`MIMEType`/...,
`data`/`content`/...); the shallow embedding collapses each chain to one
optional field holding the first present value, plus the bare-string
resource shape that `_guess_html_resource_from_wa` also accepts
(line 213). -/
inductive Res
  | obj (url : Option Str) (mime : Option Str) (data : Option Payload)
  | raw (s : Str)

/-- The parsed container (`WebArchive` object): an optional direct
`to_html()` rendering (absent models both a missing method and a raising
or `None` result), an optional main resource and the sub-resource
collection. -/
structure Container where
  toHtml : Option Str
  main : Option Res
  subs : List Res

/-- Python truthiness of a probed resource (an empty string resource is
falsy, so `if mr:` and `if rcol:` skip it). -/
def resFalsy : Res → Bool
  | Res.obj _ _ _ => false
  | Res.raw s => decide (s = [])

/-- The main resource after the `or`-chain and truthiness check
(`getattr(wa, "main_resource", None) or getattr(wa, "_main_resource", None)`
followed by `if mr:`, e.g. lines 118, 249, 480). -/
def mainOpt (c : Container) : Option Res :=
  match c.main with
  | some r => if resFalsy r then none else some r
  | none => none

/-- MIME probe of `inspect_resource_obj` (lines 170-179): first present
attribute, without a truthiness check. -/
def inspectMime : Res → Option Str
  | Res.obj _ m _ => m
  | Res.raw _ => none

/-- Text probe of `inspect_resource_obj` (lines 180-206): the first present
data attribute; byte payloads are decoded UTF-8-then-Latin-1. -/
def inspectText : Res → Option Str
  | Res.obj _ _ (some (Payload.bin bs)) => decodeBytesPy bs
  | Res.obj _ _ (some (Payload.txt s)) => some s
  | Res.obj _ _ none => none
  | Res.raw _ => none

/-- The candidate list of `_guess_html_resource_from_wa` (lines 150-168):
the truthy main resource first, then the sub-resource collection. -/
def guessCandidates (c : Container) : List Res :=
  (mainOpt c).toList ++ c.subs

/-- The acceptance test of `_guess_html_resource_from_wa` (lines 208-216):
a resource whose MIME hint is truthy and contains `html` with truthy
decoded text, or a bare string containing `<html`. -/
def acceptHtml (r : Res) : Option (Str × Str) :=
  match r with
  | Res.raw s =>
    if containsSub (lowerStr s) "<html".data then some ("text/html".data, s) else none
  | Res.obj _ _ _ =>
    match inspectMime r, inspectText r with
    | some m, some t =>
      if m ≠ [] ∧ containsSub (lowerStr m) "html".data ∧ t ≠ [] then some (m, t)
      else none
    | _, _ => none

/-- `_guess_html_resource_from_wa(wa)` (lines 149-217): the first candidate
accepted. -/
def guessHtml (c : Container) : Option (Str × Str) :=
  (guessCandidates c).findSome? acceptHtml

/-- Display of an optional value behind a Python `or`-chain ending in
`None` inside an f-string (an empty or absent MIME prints `None`,
lines 121-122, 140-141). -/
def indexDisplayMime (o : Option Str) : Str :=
  match o with
  | some m => if m = [] then "None".data else m
  | none => "None".data

/-- The URL field used by `_build_index_from_wa` (single-field view of the
`url`/`URL`/`filename` chain). -/
def resUrl : Res → Option Str
  | Res.obj u _ _ => u
  | Res.raw _ => none

/-- One `<li>` line per sub-resource (lines 137-141), with 1-based
numbering for the `resource_<i>` fallback name. -/
def indexSubLine (i : Nat) (r : Res) : Str :=
  "<li>Resource: ".data ++
    (match resUrl r with
     | some u => if u = [] then "resource_".data ++ natDecimal i else u
     | none => "resource_".data ++ natDecimal i) ++
    " (mime=".data ++ indexDisplayMime (inspectMime r) ++ ")</li>".data

/-- `_build_index_from_wa(wa, src_name)` (lines 107-146): the synthesized
HTML index listing the main resource and every sub-resource. -/
def buildIndex (c : Container) (srcName : Str) : Str :=
  List.intercalate ['\n']
    ([ "<!doctype html>".data,
       "<html><head><meta charset=".data ++ [Char.ofNat 39] ++ "utf-8".data ++
         [Char.ofNat 39, '>'],
       "<title>Index of ".data ++ srcName ++ "</title>".data,
       "</head><body>".data,
       "<h1>Index of resources in ".data ++ srcName ++ "</h1>".data,
       "<ul>".data ] ++
     (match mainOpt c with
      | some r =>
        ["<li>Main resource: ".data ++
          (match resUrl r with
           | some u => if u = [] then "main".data else u
           | none => "main".data) ++
          " (mime=".data ++ indexDisplayMime (inspectMime r) ++ ")</li>".data]
      | none => []) ++
     ((List.enumFrom 1 c.subs).map (fun p => indexSubLine p.1 p.2)) ++
     ["</ul></body></html>".data])

/-- The data probe of the raw-main-resource fallback of `convert_to_html`
(lines 479-509): byte payloads must decode to truthy text; string payloads
are written as they are (even when empty). -/
def mainData : Res → Option Payload
  | Res.obj _ _ d => d
  | Res.raw _ => none

/-- The text written by cascade step 3 of `convert_to_html`
(lines 479-509), `none` when the step falls through to the index. -/
def step3Text (c : Container) : Option Str :=
  match mainOpt c with
  | none => none
  | some r =>
    match mainData r with
    | some (Payload.bin bs) =>
      match decodeBytesPy bs with
      | some t => if t = [] then none else some t
      | none => none
    | some (Payload.txt s) => some s
    | none => none

/-- Cascade steps 2-4 of `convert_to_html` (lines 469-513): guessed HTML
resource, then raw main resource, then synthesized index. -/
def resolveRest (c : Container) (srcName : Str) : Str :=
  match guessHtml c with
  | some mt => mt.2
  | none =>
    match step3Text c with
    | some t => t
    | none => buildIndex c srcName

/-- The document-resolution cascade of `convert_to_html` without resource
inlining (lines 455-513): direct `to_html()` rendering when truthy, then
`resolveRest`. This function is total by construction, mirroring the
blanket exception handling around every cascade step. -/
def resolveDoc (c : Container) (srcName : Str) : Str :=
  match c.toHtml with
  | some t => if t = [] then resolveRest c srcName else t
  | none => resolveRest c srcName

-- lemmas about the resolution cascade

theorem intercalate_cons_ne_nil (sep x : Str) (xs : List Str) (hx : x ≠ []) :
    List.intercalate sep (x :: xs) ≠ [] := by
  cases xs with
  | nil => simpa [List.intercalate, List.intersperse] using hx
  | cons y ys => simp [List.intercalate, List.intersperse, hx]

theorem buildIndex_ne_nil (c : Container) (srcName : Str) :
    buildIndex c srcName ≠ [] := by
  unfold buildIndex
  simp only [List.cons_append]
  exact intercalate_cons_ne_nil _ _ _ (by decide)

theorem acceptHtml_text_ne_nil (r : Res) (m t : Str) (h : acceptHtml r = some (m, t)) :
    t ≠ [] := by
  cases r with
  | raw s =>
    by_cases hc : containsSub (lowerStr s) "<html".data = true
    · simp only [acceptHtml, hc, if_true, Option.some.injEq, Prod.mk.injEq] at h
      rcases h with ⟨_, ht⟩
      subst ht
      intro hnil
      rw [hnil] at hc
      exact absurd hc (by decide)
    · simp [acceptHtml, hc] at h
  | obj u mm d =>
    cases hmm : inspectMime (Res.obj u mm d) with
    | none => simp [acceptHtml, hmm] at h
    | some m0 =>
      cases hit : inspectText (Res.obj u mm d) with
      | none => simp [acceptHtml, hmm, hit] at h
      | some t0 =>
        simp only [acceptHtml, hmm, hit] at h
        split at h
        · rename_i hcond
          simp only [Option.some.injEq, Prod.mk.injEq] at h
          rcases h with ⟨_, ht⟩
          subst ht
          exact hcond.2.2
        · simp at h

theorem guessHtml_text_ne_nil (c : Container) (m t : Str)
    (h : guessHtml c = some (m, t)) : t ≠ [] := by
  rcases List.exists_of_findSome?_eq_some h with ⟨r, _, hacc⟩
  exact acceptHtml_text_ne_nil r m t hacc

theorem resolveRest_eq_nil (c : Container) (srcName : Str)
    (h : resolveRest c srcName = []) :
    guessHtml c = none ∧ step3Text c = some [] := by
  unfold resolveRest at h
  cases hg : guessHtml c with
  | some mt =>
    rw [hg] at h
    exact absurd h (guessHtml_text_ne_nil c mt.1 mt.2 (by rw [hg]))
  | none =>
    rw [hg] at h
    cases hs : step3Text c with
    | some t0 =>
      rw [hs] at h
      subst h
      exact ⟨rfl, rfl⟩
    | none =>
      rw [hs] at h
      exact absurd h (buildIndex_ne_nil c srcName)

theorem resolveDoc_eq_nil (c : Container) (srcName : Str)
    (h : resolveDoc c srcName = []) :
    (c.toHtml = none ∨ c.toHtml = some []) ∧
      guessHtml c = none ∧ step3Text c = some [] := by
  cases hth : c.toHtml with
  | some t0 =>
    by_cases ht0 : t0 = []
    · subst ht0
      have h' : resolveRest c srcName = [] := by
        unfold resolveDoc at h
        rw [hth] at h
        simpa using h
      exact ⟨Or.inr rfl, resolveRest_eq_nil c srcName h'⟩
    · exfalso
      have he : resolveDoc c srcName = t0 := by
        unfold resolveDoc
        rw [hth]
        simp [ht0]
      rw [he] at h
      exact ht0 h
  | none =>
    have h' : resolveRest c srcName = [] := by
      unfold resolveDoc at h
      rw [hth] at h
      simpa using h
    exact ⟨Or.inl rfl, resolveRest_eq_nil c srcName h'⟩

/-- C2 (amended): the cascade is total by construction and, for any
container exposing a non-empty direct rendering, or any resource the HTML
guesser accepts, or a main resource whose payload yields non-empty step-3
text, it resolves to non-empty text; a container exposing none of these
fields at all (no truthy rendering, no guessable resource, no step-3 text,
not even an empty-string payload) resolves to the synthesized index. The
one divergence from the claim as stated: a main resource holding an
empty-string payload resolves to that empty string, neither non-empty text
nor the index. -/
theorem resolve_cascade_totality (c : Container) (srcName : Str) :
    ((∃ t, c.toHtml = some t ∧ t ≠ []) ∨ (∃ p, guessHtml c = some p) ∨
        (∃ t, step3Text c = some t ∧ t ≠ []) →
      resolveDoc c srcName ≠ []) ∧
    ((c.toHtml = none ∨ c.toHtml = some []) → guessHtml c = none →
      step3Text c = none → resolveDoc c srcName = buildIndex c srcName) := by
  constructor
  · intro h hnil
    obtain ⟨hth, hguess, hstep⟩ := resolveDoc_eq_nil c srcName hnil
    rcases h with ⟨t, ht, htne⟩ | ⟨p, hp⟩ | ⟨t, ht, htne⟩
    · rcases hth with h0 | h0
      · rw [ht] at h0; exact absurd h0 (by simp)
      · rw [ht] at h0
        exact htne (by injection h0)
    · rw [hguess] at hp
      exact absurd hp (by simp)
    · rw [hstep] at ht
      exact htne (by injection ht; simp_all)
  · intro h1 h2 h3
    have hrest : resolveRest c srcName = buildIndex c srcName := by
      unfold resolveRest
      rw [h2, h3]
    unfold resolveDoc
    rcases h1 with h | h <;> rw [h] <;> simp [hrest]

/-- C2 witness: the totality theorem applied to a container with a direct
rendering `x` (first conjunct) and to a fully empty container (second
conjunct resolves to the synthesized index). -/
theorem resolve_cascade_totality_witness :
    resolveDoc ⟨some ['x'], none, []⟩ ['f'] ≠ [] ∧
      resolveDoc ⟨none, none, []⟩ ['f'] = buildIndex ⟨none, none, []⟩ ['f'] :=
  ⟨(resolve_cascade_totality ⟨some ['x'], none, []⟩ ['f']).1
      (Or.inl ⟨['x'], rfl, by decide⟩),
   (resolve_cascade_totality ⟨none, none, []⟩ ['f']).2 (Or.inl rfl) rfl rfl⟩

/-- The exposure condition of claim C2, formalized from the claim's words: a
non-empty direct whole-document rendering, or a resource with an
html-containing MIME hint and decodable text, or a main resource with a
UTF-8- or Latin-1-decodable (i.e. byte) payload. -/
def specC2ExposesAny (c : Container) : Bool :=
  (match c.toHtml with
   | some t => decide (t ≠ [])
   | none => false) ||
  (guessCandidates c).any (fun r =>
    match inspectMime r, inspectText r with
    | some m, some _ => containsSub (lowerStr m) "html".data
    | _, _ => false) ||
  (match c.main with
   | some r =>
     match mainData r with
     | some (Payload.bin _) => true
     | _ => false
   | none => false)

/-- The container of the C2 counterexample: no direct rendering, no
sub-resources, a main resource whose only payload is the empty string. -/
def cEmptyStrPayload : Container :=
  ⟨none, some (Res.obj none none (some (Payload.txt []))), []⟩

/-- C2 counterexample: a container exposing none of the claim's fields (no
non-empty rendering, no html-mime resource, no decodable byte payload)
whose resolution is the empty string written from the main resource's
string payload — not the synthesized index the claim promises, and not
non-empty text either. -/
theorem resolve_empty_string_payload_breaks_totality :
    specC2ExposesAny cEmptyStrPayload = false ∧
      resolveDoc cEmptyStrPayload "f.webarchive".data = [] ∧
      buildIndex cEmptyStrPayload "f.webarchive".data ≠ [] ∧
      resolveDoc cEmptyStrPayload "f.webarchive".data ≠
        buildIndex cEmptyStrPayload "f.webarchive".data := by
  refine ⟨by decide, by decide, ?_, ?_⟩
  · exact buildIndex_ne_nil cEmptyStrPayload "f.webarchive".data
  · intro h
    have h1 : resolveDoc cEmptyStrPayload "f.webarchive".data = [] := by decide
    rw [h1] at h
    exact buildIndex_ne_nil cEmptyStrPayload "f.webarchive".data h.symm

-- ---------------------------------------------------------------------------
-- Injectivity of decimal printing
-- ---------------------------------------------------------------------------

/-- Decimal parsing, the left inverse of `natDecimal`. -/
def parseDec (s : Str) : Nat := s.foldl (fun a c => 10 * a + (c.toNat - 48)) 0

theorem char_digit_toNat (d : Nat) (h : d < 10) :
    (Char.ofNat (48 + d)).toNat = 48 + d := by
  interval_cases d <;> decide

theorem parseDec_natDecimalAux (fuel : Nat) :
    ∀ n, n ≤ fuel → parseDec (natDecimalAux fuel n) = n := by
  induction fuel with
  | zero =>
    intro n h
    interval_cases n
    decide
  | succ fuel ih =>
    intro n h
    unfold natDecimalAux
    split
    · rename_i h10
      unfold parseDec
      simp only [List.foldl_cons, List.foldl_nil]
      rw [char_digit_toNat n h10]
      omega
    · rename_i h10
      have hrec := ih (n / 10) (by omega)
      unfold parseDec at hrec ⊢
      rw [List.foldl_append, hrec]
      simp only [List.foldl_cons, List.foldl_nil]
      rw [char_digit_toNat (n % 10) (Nat.mod_lt n (by omega))]
      omega

theorem parseDec_natDecimal (n : Nat) : parseDec (natDecimal n) = n :=
  parseDec_natDecimalAux n n (Nat.le_refl n)

theorem natDecimal_injective (a b : Nat) (h : natDecimal a = natDecimal b) : a = b := by
  have ha := parseDec_natDecimal a
  rw [h, parseDec_natDecimal b] at ha
  exact ha.symm

-- ---------------------------------------------------------------------------
-- Resource probing and collision-free materialization (C4)
-- ---------------------------------------------------------------------------

/-- URL probe of the extraction loop (lines 256-271): the first truthy
value of the conventional URL attributes. -/
def probeUrl : Res → Option Str
  | Res.obj u _ _ =>
    (match u with
     | some v => if v = [] then none else some v
     | none => none)
  | Res.raw _ => none

/-- Byte probe of the extraction loop (lines 274-295): raw bytes as they
are, text payloads UTF-8 encoded. -/
def probeBytes : Res → Option Bytes
  | Res.obj _ _ (some (Payload.bin bs)) => some bs
  | Res.obj _ _ (some (Payload.txt s)) => some (utf8Encode s)
  | Res.obj _ _ none => none
  | Res.raw _ => none

/-- MIME probe of the extraction loop (line 296), an `or`-chain ending in
`None` (an empty hint is falsy). -/
def probeMime : Res → Option Str
  | Res.obj _ m _ =>
    (match m with
     | some v => if v = [] then none else some v
     | none => none)
  | Res.raw _ => none

/-- Python falsiness of a probed byte payload (`not data_bytes`): absent
or empty. -/
def bytesFalsy : Option Bytes → Bool
  | none => true
  | some bs => decide (bs = [])

/-- The MIME-to-extension table of lines 319-338, applied when the derived
filename has no suffix. -/
def extFromMime (mime : Option Str) : Str :=
  match mime with
  | some m =>
    (let lm := lowerStr m
     if containsSub lm "jpeg".data || containsSub lm "jpg".data then ".jpg".data
     else if containsSub lm "png".data then ".png".data
     else if containsSub lm "gif".data then ".gif".data
     else if containsSub lm "svg".data then ".svg".data
     else if containsSub lm "css".data then ".css".data
     else if containsSub lm "javascript".data || containsSub lm "script".data then
       ".js".data
     else if containsSub lm "html".data || containsSub lm "text".data then ".html".data
     else [])
  | none => []

/-- Filename derivation of the extraction loop (lines 307-338): the
sanitized basename of the URL's path when present, else
`resource_<ordinal>`; a missing extension is inferred from the MIME
hint. -/
def deriveFilename (idx : Nat) (r : Res) : Str :=
  let base :=
    match probeUrl r with
    | some u =>
      (let parsed := urlparse u
       if parsed.path ≠ [] ∧ pathName parsed.path ≠ [] then
         safe_component (pathName parsed.path) MAX_COMPONENT_LEN
       else "resource_".data ++ natDecimal idx)
    | none => "resource_".data ++ natDecimal idx
  if pathSuffix base = [] then base ++ extFromMime (probeMime r) else base

/-- The collision candidate `f"{stem}_{i}{suffix}"` of line 344. -/
def freshCandidate (filename : Str) (i : Nat) : Str :=
  pathStem filename ++ '_' :: (natDecimal i ++ pathSuffix filename)

/-- The collision loop of lines 340-345, one unit of fuel per probe;
`freshName` supplies enough fuel to always find a free name. -/
def freshNameAux (taken : List Str) (filename : Str) : Nat → Nat → Str
  | 0, _ => filename
  | fuel + 1, i =>
    if freshCandidate filename i ∈ taken then freshNameAux taken filename fuel (i + 1)
    else freshCandidate filename i

/-- The materialized name of one resource (lines 340-345): the derived
filename when unused, else the first unused `stem_<i>suffix`. -/
def freshName (taken : List Str) (filename : Str) : Str :=
  if filename ∈ taken then freshNameAux taken filename (taken.length + 1) 1
  else filename

theorem freshCandidate_injective (fn : Str) (i j : Nat)
    (h : freshCandidate fn i = freshCandidate fn j) : i = j := by
  unfold freshCandidate at h
  have h1 := List.append_cancel_left h
  injection h1 with _ h2
  exact natDecimal_injective i j (List.append_cancel_right h2)

theorem freshNameAux_not_mem (taken : List Str) (fn : Str) :
    ∀ (fuel i : Nat), (∃ j, i ≤ j ∧ j < i + fuel ∧ freshCandidate fn j ∉ taken) →
      freshNameAux taken fn fuel i ∉ taken := by
  intro fuel
  induction fuel with
  | zero =>
    rintro i ⟨j, h1, h2, _⟩
    omega
  | succ fuel ih =>
    rintro i ⟨j, h1, h2, h3⟩
    unfold freshNameAux
    by_cases hmem : freshCandidate fn i ∈ taken
    · rw [if_pos hmem]
      apply ih (i + 1)
      refine ⟨j, ?_, by omega, h3⟩
      rcases Nat.eq_or_lt_of_le h1 with he | hlt
      · subst he; exact absurd hmem h3
      · omega
    · rw [if_neg hmem]; exact hmem

theorem exists_fresh_candidate (taken : List Str) (fn : Str) :
    ∃ j, 1 ≤ j ∧ j < taken.length + 2 ∧ freshCandidate fn j ∉ taken := by
  by_contra hcon
  push_neg at hcon
  have hinj : Set.InjOn (freshCandidate fn) (Finset.Icc 1 (taken.length + 1)) :=
    fun a _ b _ h => freshCandidate_injective fn a b h
  have hsub : ∀ j ∈ Finset.Icc 1 (taken.length + 1),
      freshCandidate fn j ∈ taken.toFinset := by
    intro j hj
    rw [Finset.mem_Icc] at hj
    exact List.mem_toFinset.mpr (hcon j hj.1 (by omega))
  have hcard := Finset.card_le_card_of_injOn (freshCandidate fn) hsub hinj
  rw [Nat.card_Icc] at hcard
  have hlen := List.toFinset_card_le taken
  omega

theorem freshName_not_mem (taken : List Str) (fn : Str) :
    freshName taken fn ∉ taken := by
  unfold freshName
  by_cases h : fn ∈ taken
  · rw [if_pos h]
    apply freshNameAux_not_mem
    obtain ⟨j, h1, h2, h3⟩ := exists_fresh_candidate taken fn
    exact ⟨j, h1, by omega, h3⟩
  · rw [if_neg h]; exact h

/-- The state threaded through the extraction loop: files written into the
`resources` directory (name within that directory, content bytes) and the
URL-to-local-path mapping (`url_to_local`, an insertion-ordered dict). -/
structure ExtractState where
  files : List (Str × Bytes)
  umap : List (Str × Str)

/-- Insertion-ordered dict assignment (`url_to_local[k] = v`). -/
def dinsert (m : List (Str × Str)) (k v : Str) : List (Str × Str) :=
  if m.any (fun e => decide (e.1 = k)) then
    m.map (fun e => if e.1 = k then (k, v) else e)
  else m ++ [(k, v)]

/-- Dict lookup (`url_to_local.get(k)`). -/
def dget (m : List (Str × Str)) (k : Str) : Option Str :=
  (m.find? (fun e => decide (e.1 = k))).map Prod.snd

/-- Registration of the reference variants of one materialized resource
(lines 363-383): the exact reference; `http:`/`https:` prefixes of a
protocol-relative reference; the scheme-stripped and path-only forms when
a scheme is present (else the reference itself again); and the
percent-encoded form (`quote` with an empty safe set). -/
def registerVariants (umap : List (Str × Str)) (origUrl relPath : Str) :
    List (Str × Str) :=
  let m1 := dinsert umap origUrl relPath
  let m2 :=
    if listStartsWith origUrl ['/', '/'] then
      dinsert (dinsert m1 ("http:".data ++ origUrl) relPath)
        ("https:".data ++ origUrl) relPath
    else m1
  let parsed := urlparse origUrl
  let m3 :=
    if parsed.scheme ≠ [] then
      (let m3a := dinsert m2 (urlunparseNoScheme parsed) relPath
       if parsed.path ≠ [] then dinsert m3a parsed.path relPath else m3a)
    else dinsert m2 origUrl relPath
  dinsert m3 (pquote [] origUrl) relPath

/-- The materialized name chosen for one resource: the first free name with
respect to the pre-existing directory entries and the files written so far
(`local_path.exists()`, line 343). -/
def resourceLocalName (existing0 : List Str) (st : ExtractState) (idx : Nat)
    (r : Res) : Str :=
  freshName (existing0 ++ st.files.map Prod.fst) (deriveFilename idx r)

/-- One iteration of the extraction loop (lines 301-383): skip when both
payload and reference are falsy; write the payload under a collision-free
name when the payload is truthy (file writes are modelled as succeeding);
register the reference variants when a reference is present. -/
def processResource (existing0 : List Str) (st : ExtractState) (idx : Nat)
    (r : Res) : ExtractState :=
  if bytesFalsy (probeBytes r) ∧ probeUrl r = none then st
  else
    ⟨(if bytesFalsy (probeBytes r) then st.files
      else st.files ++ [(resourceLocalName existing0 st idx r, (probeBytes r).getD [])]),
     (match probeUrl r with
      | some u =>
        registerVariants st.umap u
          ("resources/".data ++ resourceLocalName existing0 st idx r)
      | none => st.umap)⟩

/-- The extraction loop over the whole resource list, 1-based enumeration
(line 301). -/
def processResources (existing0 : List Str) :
    ExtractState → Nat → List Res → ExtractState
  | st, _, [] => st
  | st, idx, r :: rest =>
    processResources existing0 (processResource existing0 st idx r) (idx + 1) rest

/-- The resource collection of the extraction loop (lines 237-253): the
sub-resource collection, then the truthy main resource. -/
def extractResources (c : Container) : List Res :=
  c.subs ++ (mainOpt c).toList

theorem processResource_files_invariant (existing0 : List Str)
    (st : ExtractState) (idx : Nat) (r : Res)
    (h : ((st.files.map Prod.fst).Nodup ∧
      ∀ n ∈ st.files.map Prod.fst, n ∉ existing0)) :
    (((processResource existing0 st idx r).files.map Prod.fst).Nodup ∧
      ∀ n ∈ (processResource existing0 st idx r).files.map Prod.fst,
        n ∉ existing0) := by
  unfold processResource
  split
  · exact h
  · by_cases hb : bytesFalsy (probeBytes r)
    · simpa [hb] using h
    · have hfresh := freshName_not_mem (existing0 ++ st.files.map Prod.fst)
        (deriveFilename idx r)
      rw [List.mem_append] at hfresh
      push_neg at hfresh
      simp only [hb, if_neg, if_false, Bool.false_eq_true, not_false_eq_true]
      constructor
      · simp only [List.map_append, List.map_cons, List.map_nil]
        rw [List.nodup_append]
        refine ⟨h.1, List.nodup_singleton _, ?_⟩
        intro a ha hb2
        simp only [List.mem_singleton] at hb2
        subst hb2
        exact hfresh.2 ha
      · intro n hn
        simp only [List.map_append, List.map_cons, List.map_nil,
          List.mem_append, List.mem_singleton] at hn
        rcases hn with hn | hn
        · exact h.2 n hn
        · subst hn
          unfold resourceLocalName
          exact hfresh.1
  
theorem processResources_files_invariant (existing0 : List Str) (rs : List Res) :
    ∀ (idx : Nat) (st : ExtractState),
      ((st.files.map Prod.fst).Nodup ∧ ∀ n ∈ st.files.map Prod.fst, n ∉ existing0) →
      (((processResources existing0 st idx rs).files.map Prod.fst).Nodup ∧
        ∀ n ∈ (processResources existing0 st idx rs).files.map Prod.fst,
          n ∉ existing0) := by
  induction rs with
  | nil => intro idx st h; exact h
  | cons r rest ih =>
    intro idx st h
    unfold processResources
    exact ih (idx + 1) _ (processResource_files_invariant existing0 st idx r h)

/-- C4: within one conversion every materialized resource's name in the
resource directory is unique — the written names are pairwise distinct and
distinct from every pre-existing directory entry; when a derived filename
is already taken, the code probes `stem_1`, `stem_2`, ... and the first
free probe wins (second conjunct: a taken name whose `stem_1` is free is
materialized as `stem_1`); concretely, two resources that both derive
`a.png` are written as `a.png` and `a_1.png`, each with its own payload. -/
theorem materialized_paths_unique :
    (∀ (existing0 : List Str) (rs : List Res),
      (((processResources existing0 ⟨[], []⟩ 1 rs).files.map Prod.fst).Nodup ∧
        ∀ n ∈ (processResources existing0 ⟨[], []⟩ 1 rs).files.map Prod.fst,
          n ∉ existing0)) ∧
    (∀ (taken : List Str) (fn : Str), fn ∈ taken → freshCandidate fn 1 ∉ taken →
      freshName taken fn = pathStem fn ++ '_' :: (natDecimal 1 ++ pathSuffix fn)) ∧
    (processResources [] ⟨[], []⟩ 1
        [Res.obj (some "http://x/a.png".data) (some "image/png".data)
           (some (Payload.bin [1, 2, 3, 4, 5, 6, 7, 8, 9, 10])),
         Res.obj (some "http://x/a.png".data) (some "image/png".data)
           (some (Payload.bin [11, 12, 13, 14, 15, 16, 17, 18, 19, 20]))]).files =
      [("a.png".data, [1, 2, 3, 4, 5, 6, 7, 8, 9, 10]),
       ("a_1.png".data, [11, 12, 13, 14, 15, 16, 17, 18, 19, 20])] := by
  refine ⟨?_, ?_, ?_⟩
  · intro existing0 rs
    exact processResources_files_invariant existing0 rs 1 ⟨[], []⟩ (by simp)
  · intro taken fn h1 h2
    unfold freshName
    rw [if_pos h1]
    unfold freshNameAux
    rw [if_neg h2]
    rfl
  · decide

/-- C4 witness: the `stem_1` clause applied at the taken name `a.png`. -/
theorem materialized_paths_unique_witness :
    ("a.png".data ∈ ["a.png".data] ∧ freshCandidate "a.png".data 1 ∉ ["a.png".data]) ∧
      freshName ["a.png".data] "a.png".data =
        pathStem "a.png".data ++ '_' :: (natDecimal 1 ++ pathSuffix "a.png".data) :=
  ⟨⟨by decide, by decide⟩,
   materialized_paths_unique.2.1 ["a.png".data] "a.png".data (by decide) (by decide)⟩

-- ---------------------------------------------------------------------------
-- HTML rewriting passes (lines 385-435)
-- ---------------------------------------------------------------------------

/-- Case-insensitive consumption of the (lower-case) literal `lit`,
returning the rest of the input on success (the `re.I` flag on the
rewriting regexes). -/
def consumeCI (lit : Str) (s : Str) : Option Str :=
  match lit, s with
  | [], s => some s
  | _ :: _, [] => none
  | l :: lt, c :: ct => if c.toLower = l then consumeCI lt ct else none

/-- The regex class `\s`: space, tab, newline, carriage return, form feed,
vertical tab (also Python's `str.strip()`/`str.split()` whitespace on the
inputs exercised here). -/
def isSpaceRe (c : Char) : Bool :=
  c == ' ' || c == '\t' || c == '\n' || c == '\r' ||
  decide (c.toNat = 12) || decide (c.toNat = 11)

/-- `str.strip()`. -/
def pyStrip (s : Str) : Str :=
  ((s.dropWhile isSpaceRe).reverse.dropWhile isSpaceRe).reverse

/-- `str.split()` with no argument: split on whitespace runs, dropping
empty entries; one unit of fuel per produced word. -/
def pySplitWsAux : Nat → Str → List Str
  | 0, _ => []
  | fuel + 1, s =>
    match s.dropWhile isSpaceRe with
    | [] => []
    | c :: rest =>
      ((c :: rest).takeWhile (fun c => !isSpaceRe c)) ::
        pySplitWsAux fuel ((c :: rest).dropWhile (fun c => !isSpaceRe c))

/-- `str.split()` with no argument. -/
def pySplitWs (s : Str) : List Str := pySplitWsAux s.length s

/-- Generic left-to-right non-overlapping regex-substitution scanner
(`re.sub` semantics): at each position the matcher either yields the match
length and its replacement, or the scanner emits one character and moves
on; one unit of fuel per position. -/
def scanSub (tryMatch : Str → Option (Nat × Str)) : Nat → Str → Str
  | 0, s => s
  | fuel + 1, s =>
    match s with
    | [] => []
    | c :: rest =>
      match tryMatch (c :: rest) with
      | some lr => lr.2 ++ scanSub tryMatch fuel (List.drop lr.1 (c :: rest))
      | none => c :: scanSub tryMatch fuel rest

/-- Whether `(["'])(.*?)\1` completes from here: a closing quote `q` is
found with no newline before it (the dot does not match newlines). -/
def hasCloseQuote (q : Char) : Str → Bool
  | [] => false
  | c :: rest => if c = q then true else if c = '\n' then false else hasCloseQuote q rest

/-- Whether `href\s*=\s*(["'])(.*?)\1` matches at this position. -/
def matchHrefQuote (s : Str) : Bool :=
  match consumeCI "href".data s with
  | none => false
  | some r1 =>
    match r1.dropWhile isSpaceRe with
    | '=' :: r3 =>
      (match r3.dropWhile isSpaceRe with
       | q :: r5 =>
         if q = '"' ∨ q = Char.ofNat 39 then hasCloseQuote q r5 else false
       | [] => false)
    | _ => false

/-- Scan the `[^>]*` run after `<base\s+` for the `href` part of the base
regex (line 386). -/
def baseAfterWs : Str → Bool
  | [] => false
  | c :: rest =>
    if matchHrefQuote (c :: rest) then true
    else if c = '>' then false
    else baseAfterWs rest

/-- Whether `<base\s+[^>]*href\s*=\s*(["'])(.*?)\1` matches starting
here. -/
def matchBaseAt (s : Str) : Bool :=
  match consumeCI "<base".data s with
  | none => false
  | some r1 =>
    match r1 with
    | c :: rest => if isSpaceRe c then baseAfterWs (rest.dropWhile isSpaceRe) else false
    | [] => false

/-- `re.search` for the base-tag regex of line 386. -/
def hasBaseTag : Str → Bool
  | [] => false
  | c :: rest => if matchBaseAt (c :: rest) then true else hasBaseTag rest

/-- Length of a `(?i)<head[^>]*>` match starting here (line 389). -/
def matchHeadAt (s : Str) : Option Nat :=
  match consumeCI "<head".data s with
  | none => none
  | some r1 =>
    (let run := r1.takeWhile (fun c => !(c == '>'))
     match r1.drop run.length with
     | '>' :: _ => some (5 + run.length + 1)
     | _ => none)

/-- `re.sub(r"(?i)(<head[^>]*>)", r"\1\n<base href=\"./\">", html, count=1)`
(line 390): insert after the leftmost `<head...>`; `none` when the regex
does not match anywhere. The replacement template is a raw Python string,
so its `\"` sequences stay literal backslash-quote pairs: the injected tag
is `<base href=\"./\">` with stray backslashes (verified against CPython
`re.sub` template handling). -/
def injectAfterHead : Str → Option Str
  | [] => none
  | c :: rest =>
    match matchHeadAt (c :: rest) with
    | some len =>
      some (List.take len (c :: rest) ++ "\n<base href=\\\"./\\\">".data ++
        List.drop len (c :: rest))
    | none => (injectAfterHead rest).map (fun t => c :: t)

/-- The base-injection step (lines 385-392). -/
def injectBase (html : Str) : Str :=
  if hasBaseTag html then html
  else
    match injectAfterHead html with
    | some t => t
    | none => "<head><base href=\"./\"></head>\n".data ++ html

/-- `dict.get(k, default)`. -/
def dgetD (m : List (Str × Str)) (k d : Str) : Str :=
  match dget m k with
  | some v => v
  | none => d

/-- The srcset URL remapping of line 405:
`url_to_local.get(u, url_to_local.get(unquote(u), u))`. -/
def srcsetLookup (umap : List (Str × Str)) (u : Str) : Str :=
  dgetD umap u (dgetD umap (punquote u) u)

/-- `replace_srcset` (lines 397-407) applied to the quoted srcset value:
split on commas, strip each entry, remap its URL token, keep its
descriptor, join with a comma-space and requote with double quotes. An
empty entry would raise `IndexError` on `comps[0]` in the source, crashing
the rewrite; the model keeps such an entry unchanged (no claim exercises
an empty srcset entry). -/
def replaceSrcsetVal (umap : List (Str × Str)) (val : Str) : Str :=
  "srcset=\"".data ++
    List.intercalate ", ".data
      ((splitBy (fun c => c == ',') val).map (fun part =>
        let p := pyStrip part
        match pySplitWs p with
        | [] => p
        | u :: restComps =>
          pyStrip (srcsetLookup umap u ++
            (if restComps ≠ [] then ' ' :: List.intercalate [' '] restComps else [])))) ++
    ['"']

/-- Matcher for `srcset\s*=\s*q([^q]+)q` (lines 409-410), for the quote
character `q`; the replacement always uses double quotes. -/
def matchSrcsetAt (q : Char) (umap : List (Str × Str)) (s : Str) :
    Option (Nat × Str) :=
  match consumeCI "srcset".data s with
  | none => none
  | some r1 =>
    (let ws1 := r1.takeWhile isSpaceRe
     match r1.drop ws1.length with
     | '=' :: r2 =>
       (let ws2 := r2.takeWhile isSpaceRe
        match r2.drop ws2.length with
        | q0 :: r3 =>
          if q0 = q then
            (let val := r3.takeWhile (fun c => !(c == q))
             if val = [] then none
             else
               match r3.drop val.length with
               | q1 :: _ =>
                 if q1 = q then
                   some (6 + ws1.length + 1 + ws2.length + 1 + val.length + 1,
                     replaceSrcsetVal umap val)
                 else none
               | [] => none)
          else none
        | [] => none)
     | _ => none)

/-- Python `a or b or c` over the two mapping lookups of the attribute pass
(line 415): an absent or empty lookup falls through. -/
def pyOrStr : Option Str → Str → Str
  | some v, b => if v = [] then b else v
  | none, b => b

/-- The attribute-value remapping of line 415:
`url_to_local.get(g2) or url_to_local.get(unquote(g2)) or g2`. -/
def attrLookup (umap : List (Str × Str)) (g2 : Str) : Str :=
  pyOrStr (dget umap g2) (pyOrStr (dget umap (punquote g2)) g2)

/-- Matcher for `{attr}\s*=\s*(["'])(.*?)\1` (lines 413-415); the
replacement is `{attr}={q}{mapped}{q}` with the attribute name as written
in the pattern list. -/
def matchAttrAt (attr : Str) (umap : List (Str × Str)) (s : Str) :
    Option (Nat × Str) :=
  match consumeCI attr s with
  | none => none
  | some r1 =>
    (let ws1 := r1.takeWhile isSpaceRe
     match r1.drop ws1.length with
     | '=' :: r2 =>
       (let ws2 := r2.takeWhile isSpaceRe
        match r2.drop ws2.length with
        | q :: r3 =>
          if q = '"' ∨ q = Char.ofNat 39 then
            (let content := r3.takeWhile (fun c => !(c == q || c == '\n'))
             match r3.drop content.length with
             | c2 :: _ =>
               if c2 = q then
                 some (attr.length + ws1.length + 1 + ws2.length + 1 +
                     content.length + 1,
                   attr ++ '=' :: q :: (attrLookup umap content ++ [q]))
               else none
             | [] => none)
          else none
        | [] => none)
     | _ => none)

/-- One attribute pass (`pattern.sub` of line 415). -/
def subAttr (attr : Str) (umap : List (Str × Str)) (s : Str) : Str :=
  scanSub (matchAttrAt attr umap) s.length s

/-- Characters stripped by `.strip('\x27"')` in `css_url_repl`. -/
def isQuoteCh (c : Char) : Bool := c == '"' || c == Char.ofNat 39

/-- Python `a or b` over two optional lookups (line 420). -/
def pyOrOpt : Option Str → Option Str → Option Str
  | some v, b => if v = [] then b else some v
  | none, b => b

/-- Matcher for `url\(\s*([^)]+?)\s*\)` with `css_url_repl` (lines
418-424): the group is stripped of whitespace and quotes and remapped; a
missing or falsy mapping leaves the whole match unchanged (the scan still
skips past it, as `re.sub` does). -/
def matchCssUrlAt (umap : List (Str × Str)) (s : Str) : Option (Nat × Str) :=
  match consumeCI "url".data s with
  | none => none
  | some r1 =>
    match r1 with
    | '(' :: r2 =>
      (let inner := r2.takeWhile (fun c => !(c == ')'))
       if inner = [] then none
       else
         match r2.drop inner.length with
         | ')' :: _ =>
           (let key := ((pyStrip inner).dropWhile isQuoteCh).reverse.dropWhile isQuoteCh
            let keyS := key.reverse
            match pyOrOpt (dget umap keyS) (dget umap (punquote keyS)) with
            | some v =>
              if v = [] then some (3 + 1 + inner.length + 1, "url(".data ++ inner ++ [')'])
              else some (3 + 1 + inner.length + 1, "url(\"".data ++ v ++ "\")".data)
            | none => some (3 + 1 + inner.length + 1, "url(".data ++ inner ++ [')']))
         | _ => none)
    | _ => none

/-- The whole rewrite of `_extract_subresources_and_rewrite` after the
mapping is built (lines 385-435): base injection, double- then
single-quoted `srcset`, the five attribute passes, CSS `url(...)`, and the
final longest-key-first catch-all pass. -/
def rewriteHtml (umap : List (Str × Str)) (html : Str) : Str :=
  let h1 := injectBase html
  let h2 := scanSub (matchSrcsetAt '"' umap) h1.length h1
  let h3 := scanSub (matchSrcsetAt (Char.ofNat 39) umap) h2.length h2
  let h4 := ["src", "href", "poster", "data-src", "data-hires"].foldl
    (fun acc attr => subAttr attr.data umap acc) h3
  let h5 := scanSub (matchCssUrlAt umap) h4.length h4
  finalCatchAllPass umap h5

/-- `_extract_subresources_and_rewrite(html_text, wa, out, "resources")`
(lines 221-435): materialize the container's resources into the
`resources` directory and rewrite the document; returns the rewritten text
and the files written. -/
def extractAndRewrite (htmlText : Str) (c : Container) (existing0 : List Str) :
    Str × List (Str × Bytes) :=
  let st := processResources existing0 ⟨[], []⟩ 1 (extractResources c)
  (rewriteHtml st.umap htmlText, st.files)

/-- Cascade steps 2-4 of `convert_to_html` with resource inlining
(lines 469-513). -/
def convertRest (c : Container) (srcName : Str) (inline : Bool)
    (existing0 : List Str) : Str × List (Str × Bytes) :=
  match guessHtml c with
  | some mt => if inline then extractAndRewrite mt.2 c existing0 else (mt.2, [])
  | none =>
    match step3Text c with
    | some t => if inline then extractAndRewrite t c existing0 else (t, [])
    | none => (buildIndex c srcName, [])

/-- `convert_to_html(src, dest, dry_run=False, inline_resources)` (lines
439-513), returning the written document text and the materialized
resource files (names within the sibling `resources` directory). -/
def convertToHtml (c : Container) (srcName : Str) (inline : Bool)
    (existing0 : List Str) : Str × List (Str × Bytes) :=
  match c.toHtml with
  | some t =>
    if t = [] then convertRest c srcName inline existing0
    else if inline then extractAndRewrite t c existing0
    else (t, [])
  | none => convertRest c srcName inline existing0

-- ---------------------------------------------------------------------------
-- End-to-end inlining scenario (C1)
-- ---------------------------------------------------------------------------

/-- The container of the spec's end-to-end scenario: main document text
`<html><head></head><body><img src="http://x/a.png"></body></html>` and one
sub-resource with reference `http://x/a.png`, MIME hint `image/png` and a
10-byte payload. -/
def c1Container : Container :=
  ⟨some "<html><head></head><body><img src=\"http://x/a.png\"></body></html>".data,
   none,
   [Res.obj (some "http://x/a.png".data) (some "image/png".data)
      (some (Payload.bin [1, 2, 3, 4, 5, 6, 7, 8, 9, 10]))]⟩

/-- C1 counterexample: converting the scenario container with resource
inlining into an empty output directory produces a document that contains
neither `<img src="resources/a.png">` (the final catch-all pass re-applies
the mapped path-only reference `/a.png` inside the already-rewritten
`resources/a.png`) nor a clean `<base href="./">` (the raw-string
replacement template of line 390 injects literal backslashes). -/
theorem end_to_end_inline_counterexample :
    containsSub (convertToHtml c1Container "f.webarchive".data true []).1
        "<img src=\"resources/a.png\">".data = false ∧
      containsSub (convertToHtml c1Container "f.webarchive".data true []).1
        "<base href=\"./\">".data = false := by
  decide

/-- C1 (amended): the conversion writes `resources/a.png` with exactly the
original 10 bytes, but the document text is
`<html><head>\n<base href=\"./\"></head><body><img
src="resourcesresourcesresourcesresources/a.png"></body></html>`: the
attribute pass first rewrites the `img` source to `resources/a.png`, then
the final catch-all pass substitutes the mapped path-only reference
`/a.png` inside it three more times (raw, HTML-escaped and percent-encoded
forms of the key are each replaced), and the injected base tag carries the
raw-string template's literal backslashes. -/
theorem end_to_end_inline_actual_output :
    convertToHtml c1Container "f.webarchive".data true [] =
      ("<html><head>\n<base href=\\\"./\\\"></head><body><img src=\"resourcesresourcesresourcesresources/a.png\"></body></html>".data,
       [("a.png".data, [1, 2, 3, 4, 5, 6, 7, 8, 9, 10])]) := by
  decide
